import Mathlib

set_option maxRecDepth 100000
set_option maxHeartbeats 10000000

/-!
Shallow embedding of `base_layer/common_types/src/emoji.rs`: the emoji
encoding of byte vectors (`EmojiId`), its fixed 256-entry alphabet
`BYTE_TO_EMOJI`, the derived reverse map `EMOJI_TO_BYTE`, and the
encode (`Display`) / decode (`FromStr`) operations.

Bytes (`u8`) are modelled as `Nat` values below 256; strings are lists of
Unicode scalar values (`List Char`), matching iteration by `str::chars`.
-/

/-- Number of elements in the emojibet (`DICT_SIZE` in the source). -/
def DICT_SIZE : Nat := 256

/-- The emojibet, mapping byte values to emoji characters: the 256 `char`
literals of the `BYTE_TO_EMOJI` array, written as code points. -/
def BYTE_TO_EMOJI : List Char := [
  Char.ofNat 129419, Char.ofNat 128223, Char.ofNat 127752, Char.ofNat 127754, Char.ofNat 127919, Char.ofNat 128011, Char.ofNat 127769, Char.ofNat 129300,
  Char.ofNat 127765, Char.ofNat 11088, Char.ofNat 127883, Char.ofNat 127792, Char.ofNat 127796, Char.ofNat 127797, Char.ofNat 127794, Char.ofNat 127800,
  Char.ofNat 127801, Char.ofNat 127803, Char.ofNat 127805, Char.ofNat 127808, Char.ofNat 127809, Char.ofNat 127812, Char.ofNat 129361, Char.ofNat 127814,
  Char.ofNat 127815, Char.ofNat 127816, Char.ofNat 127817, Char.ofNat 127818, Char.ofNat 127819, Char.ofNat 127820, Char.ofNat 127821, Char.ofNat 127822,
  Char.ofNat 127824, Char.ofNat 127825, Char.ofNat 127826, Char.ofNat 127827, Char.ofNat 127828, Char.ofNat 127829, Char.ofNat 127831, Char.ofNat 127834,
  Char.ofNat 127838, Char.ofNat 127839, Char.ofNat 129373, Char.ofNat 127843, Char.ofNat 127846, Char.ofNat 127849, Char.ofNat 127850, Char.ofNat 127851,
  Char.ofNat 127852, Char.ofNat 127853, Char.ofNat 127855, Char.ofNat 129360, Char.ofNat 127859, Char.ofNat 129348, Char.ofNat 127861, Char.ofNat 127862,
  Char.ofNat 127863, Char.ofNat 127864, Char.ofNat 127870, Char.ofNat 127866, Char.ofNat 127868, Char.ofNat 127872, Char.ofNat 127873, Char.ofNat 127874,
  Char.ofNat 127875, Char.ofNat 129302, Char.ofNat 127880, Char.ofNat 127881, Char.ofNat 127890, Char.ofNat 127891, Char.ofNat 127904, Char.ofNat 127905,
  Char.ofNat 127906, Char.ofNat 127907, Char.ofNat 127908, Char.ofNat 127909, Char.ofNat 127911, Char.ofNat 127912, Char.ofNat 127913, Char.ofNat 127914,
  Char.ofNat 127916, Char.ofNat 127917, Char.ofNat 127918, Char.ofNat 127920, Char.ofNat 127921, Char.ofNat 127922, Char.ofNat 127923, Char.ofNat 127925,
  Char.ofNat 127927, Char.ofNat 127928, Char.ofNat 127929, Char.ofNat 127930, Char.ofNat 127931, Char.ofNat 127932, Char.ofNat 127933, Char.ofNat 127934,
  Char.ofNat 127935, Char.ofNat 127936, Char.ofNat 127937, Char.ofNat 127942, Char.ofNat 127944, Char.ofNat 9917, Char.ofNat 127968, Char.ofNat 127973,
  Char.ofNat 127974, Char.ofNat 127981, Char.ofNat 127984, Char.ofNat 128000, Char.ofNat 128009, Char.ofNat 128010, Char.ofNat 128012, Char.ofNat 128013,
  Char.ofNat 129409, Char.ofNat 128016, Char.ofNat 128017, Char.ofNat 128020, Char.ofNat 128584, Char.ofNat 128023, Char.ofNat 128024, Char.ofNat 128025,
  Char.ofNat 128026, Char.ofNat 128027, Char.ofNat 128028, Char.ofNat 128029, Char.ofNat 128030, Char.ofNat 128034, Char.ofNat 128035, Char.ofNat 128040,
  Char.ofNat 129408, Char.ofNat 128042, Char.ofNat 128044, Char.ofNat 128045, Char.ofNat 128046, Char.ofNat 128047, Char.ofNat 128048, Char.ofNat 129414,
  Char.ofNat 129410, Char.ofNat 128052, Char.ofNat 128053, Char.ofNat 128054, Char.ofNat 128055, Char.ofNat 128056, Char.ofNat 128058, Char.ofNat 128059,
  Char.ofNat 128060, Char.ofNat 128061, Char.ofNat 128062, Char.ofNat 128064, Char.ofNat 128069, Char.ofNat 128081, Char.ofNat 128082, Char.ofNat 129506,
  Char.ofNat 128133, Char.ofNat 128085, Char.ofNat 128086, Char.ofNat 128087, Char.ofNat 128088, Char.ofNat 128089, Char.ofNat 128131, Char.ofNat 128091,
  Char.ofNat 128093, Char.ofNat 128095, Char.ofNat 128096, Char.ofNat 129354, Char.ofNat 128098, Char.ofNat 128099, Char.ofNat 129313, Char.ofNat 128123,
  Char.ofNat 128125, Char.ofNat 128126, Char.ofNat 129312, Char.ofNat 128067, Char.ofNat 128132, Char.ofNat 128136, Char.ofNat 128137, Char.ofNat 128138,
  Char.ofNat 128139, Char.ofNat 128066, Char.ofNat 128141, Char.ofNat 128142, Char.ofNat 128144, Char.ofNat 128148, Char.ofNat 128274, Char.ofNat 129513,
  Char.ofNat 128161, Char.ofNat 128163, Char.ofNat 128164, Char.ofNat 128166, Char.ofNat 128168, Char.ofNat 128169, Char.ofNat 10133, Char.ofNat 128175,
  Char.ofNat 128176, Char.ofNat 128179, Char.ofNat 128181, Char.ofNat 128186, Char.ofNat 128187, Char.ofNat 128188, Char.ofNat 128200, Char.ofNat 128220,
  Char.ofNat 128204, Char.ofNat 128206, Char.ofNat 128214, Char.ofNat 128255, Char.ofNat 128225, Char.ofNat 9200, Char.ofNat 128241, Char.ofNat 128247,
  Char.ofNat 128267, Char.ofNat 128268, Char.ofNat 128688, Char.ofNat 128273, Char.ofNat 128276, Char.ofNat 128293, Char.ofNat 128294, Char.ofNat 128295,
  Char.ofNat 128296, Char.ofNat 128297, Char.ofNat 128298, Char.ofNat 128299, Char.ofNat 128300, Char.ofNat 128301, Char.ofNat 128302, Char.ofNat 128305,
  Char.ofNat 128509, Char.ofNat 128514, Char.ofNat 128519, Char.ofNat 128520, Char.ofNat 129297, Char.ofNat 128525, Char.ofNat 128526, Char.ofNat 128561,
  Char.ofNat 128567, Char.ofNat 129314, Char.ofNat 128077, Char.ofNat 128118, Char.ofNat 128640, Char.ofNat 128641, Char.ofNat 128642, Char.ofNat 128666,
  Char.ofNat 128657, Char.ofNat 128658, Char.ofNat 128659, Char.ofNat 128757, Char.ofNat 128663, Char.ofNat 128668, Char.ofNat 128674, Char.ofNat 128678,
  Char.ofNat 128679, Char.ofNat 128680, Char.ofNat 128682, Char.ofNat 128683, Char.ofNat 128690, Char.ofNat 128701, Char.ofNat 128703, Char.ofNat 129522]

/-- The reverse emojibet (`EMOJI_TO_BYTE` in the source): a `HashMap` built by
inserting `(c, i)` for each `(i, c)` of `BYTE_TO_EMOJI.iter().enumerate()`.
A later insert for the same character would overwrite an earlier one, so a
lookup returns the last index whose table entry equals the key; the fold
below reproduces exactly that. -/
def EMOJI_TO_BYTE (c : Char) : Option Nat :=
  BYTE_TO_EMOJI.enum.foldl (fun m p => if p.2 = c then some p.1 else m) none

/-- Error type for emoji decoding (`EmojiIdError` in the source). -/
inductive EmojiIdError where
  | InvalidEmoji
deriving DecidableEq

/-- An emoji encoding of a byte vector (`EmojiId` in the source): a wrapper
around a byte vector. -/
structure EmojiId where
  bytes : List Nat
deriving DecidableEq

/-- Get the bytes from an emoji ID (`EmojiId::as_bytes`). -/
def EmojiId.as_bytes (e : EmojiId) : List Nat := e.bytes

/-- Construction from a byte vector (`impl From<Vec<u8>> for EmojiId`). -/
def EmojiId.fromBytes (value : List Nat) : EmojiId := { bytes := value }

/-- The loop body of `FromStr::from_str`: walk the characters, look each one
up in the reverse emojibet, pushing the byte onto the accumulator on success
and returning the error on the first failure. -/
def fromStrLoop : List Char → List Nat → Except EmojiIdError (List Nat)
  | [], bytes => .ok bytes
  | c :: cs, bytes =>
    match EMOJI_TO_BYTE c with
    | some i => fromStrLoop cs (bytes ++ [i])
    | none => .error EmojiIdError.InvalidEmoji

/-- Try to convert a string of emoji to an emoji ID (`FromStr::from_str`). -/
def EmojiId.from_str (s : List Char) : Except EmojiIdError EmojiId :=
  Except.map (fun bs => { bytes := bs }) (fromStrLoop s [])

/-- Rendering of an emoji ID (`impl Display for EmojiId`): map each byte to
its emoji through `BYTE_TO_EMOJI[*b as usize]`. -/
def EmojiId.toString (e : EmojiId) : List Char :=
  e.bytes.map (fun b => BYTE_TO_EMOJI[b]!)

/-- The comparison Rust derives for `Vec<u8>`: lexicographic, element-wise,
a strict prefix ordering before the longer sequence. -/
def cmpVec : List Nat → List Nat → Ordering
  | [], [] => .eq
  | [], _ :: _ => .lt
  | _ :: _, [] => .gt
  | a :: as, b :: bs =>
    match compare a b with
    | .lt => .lt
    | .gt => .gt
    | .eq => cmpVec as bs

/-- The derived `Ord` on `EmojiId`: field-wise comparison, i.e. comparison
of the wrapped byte vectors. -/
def EmojiId.cmp (x y : EmojiId) : Ordering := cmpVec x.bytes y.bytes

theorem byteToEmoji_length : BYTE_TO_EMOJI.length = 256 := by decide

theorem byteToEmoji_nodup : BYTE_TO_EMOJI.Nodup := by decide

theorem lookupFold_eq_some {l : List (Nat × Char)} {c : Char} {acc : Option Nat} {i : Nat}
    (h : l.foldl (fun m p => if p.2 = c then some p.1 else m) acc = some i) :
    (i, c) ∈ l ∨ acc = some i := by
  induction l generalizing acc with
  | nil => exact .inr h
  | cons p l ih =>
    simp only [List.foldl_cons] at h
    rcases ih h with hm | hacc
    · exact .inl (List.mem_cons_of_mem _ hm)
    · by_cases hpc : p.2 = c
      · simp only [hpc, if_pos rfl] at hacc
        obtain ⟨rfl⟩ : p.1 = i := Option.some.inj hacc
        exact .inl (by rw [← hpc]; exact List.mem_cons_self _ _)
      · simp only [if_neg hpc] at hacc
        exact .inr hacc

theorem lookupFold_ne_none {l : List (Nat × Char)} {c : Char} {acc : Option Nat} {j : Nat}
    (hm : (j, c) ∈ l) :
    l.foldl (fun m p => if p.2 = c then some p.1 else m) acc ≠ none := by
  induction l generalizing acc with
  | nil => cases hm
  | cons p l ih =>
    simp only [List.foldl_cons]
    rcases List.mem_cons.mp hm with rfl | hm
    · -- the head matches: the accumulator becomes `some`, and the rest of the
      -- fold can only keep it `some` or replace it with another `some`
      have : ∀ (l : List (Nat × Char)) (a : Nat),
          l.foldl (fun m p => if p.2 = c then some p.1 else m) (some a) ≠ none := by
        intro l
        induction l with
        | nil => intro a h; cases h
        | cons q l ihq =>
          intro a
          simp only [List.foldl_cons]
          by_cases hq : q.2 = c
          · simp only [if_pos hq]; exact ihq q.1
          · simp only [if_neg hq]; exact ihq a
      simp only [if_pos rfl]
      exact this l j
    · exact ih hm

theorem lookupFold_none_of_forall {l : List (Nat × Char)} {c : Char} {acc : Option Nat}
    (h : ∀ p ∈ l, p.2 ≠ c) :
    l.foldl (fun m p => if p.2 = c then some p.1 else m) acc = acc := by
  induction l generalizing acc with
  | nil => rfl
  | cons p l ih =>
    simp only [List.foldl_cons]
    rw [if_neg (h p (List.mem_cons_self _ _))]
    exact ih fun q hq => h q (List.mem_cons_of_mem _ hq)

theorem emojiToByte_eq_some_iff {c : Char} {i : Nat} :
    EMOJI_TO_BYTE c = some i ↔ BYTE_TO_EMOJI[i]? = some c := by
  constructor
  · intro h
    rcases lookupFold_eq_some h with hm | hacc
    · exact List.mk_mem_enum_iff_getElem?.mp hm
    · cases hacc
  · intro h
    have hm : (i, c) ∈ BYTE_TO_EMOJI.enum := List.mk_mem_enum_iff_getElem?.mpr h
    rcases hr : EMOJI_TO_BYTE c with _ | j
    · exact absurd hr (lookupFold_ne_none hm)
    · rcases lookupFold_eq_some hr with hmj | hacc
      · have hj : BYTE_TO_EMOJI[j]? = some c := List.mk_mem_enum_iff_getElem?.mp hmj
        have hjlt : j < BYTE_TO_EMOJI.length := by
          rcases List.getElem?_eq_some.mp hj with ⟨hlt, _⟩
          exact hlt
        have : j = i := List.getElem?_inj hjlt byteToEmoji_nodup (hj.trans h.symm)
        rw [this]
      · cases hacc

theorem emojiToByte_eq_none_iff {c : Char} :
    EMOJI_TO_BYTE c = none ↔ c ∉ BYTE_TO_EMOJI := by
  constructor
  · intro h hc
    rcases List.mem_iff_getElem?.mp hc with ⟨i, hi⟩
    exact lookupFold_ne_none (List.mk_mem_enum_iff_getElem?.mpr hi) h
  · intro hc
    rcases hr : EMOJI_TO_BYTE c with _ | j
    · rfl
    · rcases lookupFold_eq_some hr with hmj | hacc
      · have hj : BYTE_TO_EMOJI[j]? = some c := List.mk_mem_enum_iff_getElem?.mp hmj
        exact absurd (List.getElem?_mem hj) hc
      · cases hacc

theorem emojiToByte_glyph {b : Nat} (h : b < 256) :
    EMOJI_TO_BYTE (BYTE_TO_EMOJI[b]!) = some b := by
  have hlen : b < BYTE_TO_EMOJI.length := byteToEmoji_length ▸ h
  rw [getElem!_pos BYTE_TO_EMOJI b hlen]
  exact emojiToByte_eq_some_iff.mpr (List.getElem?_eq_getElem hlen)

theorem emojiToByte_sound {c : Char} {i : Nat} (h : EMOJI_TO_BYTE c = some i) :
    i < 256 ∧ BYTE_TO_EMOJI[i]! = c := by
  have hi : BYTE_TO_EMOJI[i]? = some c := emojiToByte_eq_some_iff.mp h
  rcases List.getElem?_eq_some.mp hi with ⟨hlt, heq⟩
  refine ⟨byteToEmoji_length ▸ hlt, ?_⟩
  rw [getElem!_pos BYTE_TO_EMOJI i hlt]
  exact heq

theorem fromStrLoop_append (s : List Char) (acc : List Nat) :
    fromStrLoop s acc = (fromStrLoop s []).map (fun l => acc ++ l) := by
  induction s generalizing acc with
  | nil => simp [fromStrLoop, Except.map]
  | cons c cs ih =>
    rcases h : EMOJI_TO_BYTE c with _ | i
    · simp [fromStrLoop, h, Except.map]
    · simp only [fromStrLoop, h]
      rw [ih (acc ++ [i]), ih ([] ++ [i])]
      rcases r : fromStrLoop cs [] with e | l
      · rfl
      · simp [Except.map, List.append_assoc]

theorem fromStrLoop_encode (B : List Nat) (h : ∀ b ∈ B, b < 256) :
    fromStrLoop (B.map fun b => BYTE_TO_EMOJI[b]!) [] = .ok B := by
  induction B with
  | nil => rfl
  | cons b B ih =>
    have hb : b < 256 := h b (List.mem_cons_self _ _)
    simp only [List.map_cons, fromStrLoop, emojiToByte_glyph hb]
    rw [fromStrLoop_append _ ([] ++ [b]), ih fun x hx => h x (List.mem_cons_of_mem _ hx)]
    rfl

theorem fromStrLoop_sound (s : List Char) (bs : List Nat)
    (h : fromStrLoop s [] = .ok bs) :
    bs.map (fun b => BYTE_TO_EMOJI[b]!) = s := by
  induction s generalizing bs with
  | nil =>
    obtain rfl : bs = [] := by
      simpa [fromStrLoop] using h.symm
    rfl
  | cons c cs ih =>
    rcases hc : EMOJI_TO_BYTE c with _ | i
    · simp only [fromStrLoop, hc] at h
      cases h
    · simp only [fromStrLoop, hc] at h
      rw [fromStrLoop_append cs ([] ++ [i])] at h
      rcases r : fromStrLoop cs [] with e | l
      · rw [r] at h; cases h
      · rw [r] at h
        obtain rfl : [] ++ [i] ++ l = bs := by
          simpa [Except.map] using h
        have hi := emojiToByte_sound hc
        simp only [List.nil_append, List.singleton_append, List.map_cons, hi.2, ih l r]

theorem fromStrLoop_error_iff (s : List Char) (acc : List Nat) :
    (∃ e, fromStrLoop s acc = .error e) ↔ ∃ c ∈ s, EMOJI_TO_BYTE c = none := by
  induction s generalizing acc with
  | nil =>
    simp [fromStrLoop]
  | cons c cs ih =>
    rcases hc : EMOJI_TO_BYTE c with _ | i
    · simp only [fromStrLoop, hc, List.mem_cons]
      constructor
      · intro _
        exact ⟨c, .inl rfl, hc⟩
      · intro _
        exact ⟨EmojiIdError.InvalidEmoji, trivial⟩
    · simp only [fromStrLoop, hc, List.mem_cons]
      rw [ih (acc ++ [i])]
      constructor
      · rintro ⟨d, hd, hdn⟩
        exact ⟨d, .inr hd, hdn⟩
      · rintro ⟨d, hd | hd, hdn⟩
        · rw [← hd] at hc
          rw [hc] at hdn
          cases hdn
        · exact ⟨d, hd, hdn⟩

theorem emojiIdError_eq (e : EmojiIdError) : e = EmojiIdError.InvalidEmoji := by
  cases e
  rfl

theorem cmpVec_eq_iff (xs ys : List Nat) : cmpVec xs ys = .eq ↔ xs = ys := by
  induction xs generalizing ys with
  | nil =>
    cases ys with
    | nil => simp [cmpVec]
    | cons b bs => simp [cmpVec]
  | cons a as ih =>
    cases ys with
    | nil => simp [cmpVec]
    | cons b bs =>
      rcases hab : compare a b with _ | _ | _
      · simp only [cmpVec, hab]
        have hne : a ≠ b := Nat.ne_of_lt (Nat.compare_eq_lt.mp hab)
        simp [hne]
      · have heq : a = b := Nat.compare_eq_eq.mp hab
        subst heq
        simp only [cmpVec, hab]
        rw [ih bs]
        simp
      · simp only [cmpVec, hab]
        have hne : a ≠ b := Nat.ne_of_gt (Nat.compare_eq_gt.mp hab)
        simp [hne]

theorem cmpVec_swap (xs ys : List Nat) : cmpVec ys xs = (cmpVec xs ys).swap := by
  induction xs generalizing ys with
  | nil =>
    cases ys with
    | nil => rfl
    | cons b bs => rfl
  | cons a as ih =>
    cases ys with
    | nil => rfl
    | cons b bs =>
      rcases hab : compare a b with _ | _ | _
      · have hba : compare b a = .gt := Nat.compare_eq_gt.mpr (Nat.compare_eq_lt.mp hab)
        simp [cmpVec, hab, hba, Ordering.swap]
      · have heq : a = b := Nat.compare_eq_eq.mp hab
        subst heq
        simp [cmpVec, hab, ih bs]
      · have hba : compare b a = .lt := Nat.compare_eq_lt.mpr (Nat.compare_eq_gt.mp hab)
        simp [cmpVec, hab, hba, Ordering.swap]

theorem cmpVec_lt_trans {xs ys zs : List Nat}
    (h1 : cmpVec xs ys = .lt) (h2 : cmpVec ys zs = .lt) : cmpVec xs zs = .lt := by
  induction xs generalizing ys zs with
  | nil =>
    cases ys with
    | nil => simp [cmpVec] at h1
    | cons b bs =>
      cases zs with
      | nil => simp [cmpVec] at h2
      | cons c cs => simp [cmpVec]
  | cons a as ih =>
    cases ys with
    | nil => simp [cmpVec] at h1
    | cons b bs =>
      cases zs with
      | nil => simp [cmpVec] at h2
      | cons c cs =>
        rcases hab : compare a b with _ | _ | _
        · rcases hbc : compare b c with _ | _ | _
          · have hac : compare a c = .lt :=
              Nat.compare_eq_lt.mpr
                (Nat.lt_trans (Nat.compare_eq_lt.mp hab) (Nat.compare_eq_lt.mp hbc))
            simp [cmpVec, hac]
          · have heq : b = c := Nat.compare_eq_eq.mp hbc
            have hac : compare a c = .lt := Nat.compare_eq_lt.mpr (heq ▸ Nat.compare_eq_lt.mp hab)
            simp [cmpVec, hac]
          · simp [cmpVec, hbc] at h2
        · have heq : a = b := Nat.compare_eq_eq.mp hab
          subst heq
          rcases hbc : compare a c with _ | _ | _
          · simp [cmpVec, hbc]
          · have heq2 : a = c := Nat.compare_eq_eq.mp hbc
            subst heq2
            simp only [cmpVec, hab] at h1
            simp only [cmpVec, hbc] at h2
            simp only [cmpVec, hab]
            exact ih h1 h2
          · simp [cmpVec, hbc] at h2
        · simp [cmpVec, hab] at h1

theorem cmpVec_lt_iff_lex (xs ys : List Nat) :
    cmpVec xs ys = .lt ↔ List.Lex (· < ·) xs ys := by
  induction xs generalizing ys with
  | nil =>
    cases ys with
    | nil => simp [cmpVec]
    | cons b bs =>
      simp only [cmpVec]
      exact ⟨fun _ => List.Lex.nil, fun _ => trivial⟩
  | cons a as ih =>
    cases ys with
    | nil => simp [cmpVec]
    | cons b bs =>
      rcases hab : compare a b with _ | _ | _
      · simp only [cmpVec, hab]
        exact ⟨fun _ => List.Lex.rel (Nat.compare_eq_lt.mp hab), fun _ => trivial⟩
      · have heq : a = b := Nat.compare_eq_eq.mp hab
        subst heq
        simp only [cmpVec, hab]
        rw [ih bs, List.Lex.cons_iff]
      · simp only [cmpVec, hab]
        have hba : b < a := Nat.compare_eq_gt.mp hab
        constructor
        · intro h; cases h
        · intro h
          cases h with
          | cons h' => exact absurd hba (Nat.lt_irrefl _)
          | rel h' => exact absurd hba (Nat.lt_asymm h')

/-- C1: for every byte sequence B (each entry a byte value below 256),
decoding the encoding of B succeeds and yields exactly B: `from_str` applied
to the rendered string of `EmojiId::from(B)` returns `Ok` of an identifier
whose bytes equal B. -/
theorem C1_decode_encode_roundtrip (B : List Nat) (h : ∀ b ∈ B, b < 256) :
    EmojiId.from_str (EmojiId.toString (EmojiId.fromBytes B)) =
      Except.ok (EmojiId.fromBytes B) ∧
    (EmojiId.fromBytes B).as_bytes = B := by
  refine ⟨?_, rfl⟩
  have : EmojiId.toString (EmojiId.fromBytes B) = B.map fun b => BYTE_TO_EMOJI[b]! := rfl
  rw [EmojiId.from_str, this, fromStrLoop_encode B h]
  rfl

/-- Witness for C1 at the concrete byte sequence `[0, 42, 255]`. -/
theorem C1_witness :
    EmojiId.from_str (EmojiId.toString (EmojiId.fromBytes [0, 42, 255])) =
      Except.ok (EmojiId.fromBytes [0, 42, 255]) ∧
    (EmojiId.fromBytes [0, 42, 255]).as_bytes = [0, 42, 255] :=
  C1_decode_encode_roundtrip [0, 42, 255] (by decide)

/-- C2: for every string S, if decoding S succeeds with identifier `id`, then
re-encoding reproduces S exactly: rendering `id` gives back S. -/
theorem C2_encode_decode_roundtrip (s : List Char) (id : EmojiId)
    (h : EmojiId.from_str s = Except.ok id) :
    EmojiId.toString id = s := by
  rw [EmojiId.from_str] at h
  rcases r : fromStrLoop s [] with e | bs
  · rw [r] at h
    cases h
  · rw [r] at h
    obtain rfl : ({ bytes := bs } : EmojiId) = id := by
      simpa [Except.map] using h
    exact fromStrLoop_sound s bs r

/-- Witness for C2 at the concrete one-glyph string `[🦋]`. -/
theorem C2_witness : EmojiId.toString { bytes := [0] } = [Char.ofNat 129419] :=
  C2_encode_decode_roundtrip [Char.ofNat 129419] { bytes := [0] } (by rfl)

/-- C3: the alphabet table `BYTE_TO_EMOJI` has exactly 256 entries and they
are pairwise distinct. -/
theorem C3_alphabet_card_and_distinct :
    BYTE_TO_EMOJI.length = 256 ∧
    ∀ i j, i < 256 → j < 256 → i ≠ j → BYTE_TO_EMOJI[i]! ≠ BYTE_TO_EMOJI[j]! := by
  refine ⟨byteToEmoji_length, ?_⟩
  intro i j hi hj hne heq
  have h1 := emojiToByte_glyph hi
  have h2 := emojiToByte_glyph hj
  rw [heq] at h1
  exact hne (Option.some.inj (h1.symm.trans h2))

/-- Witness for C3 at the concrete indices 0 and 255. -/
theorem C3_witness :
    BYTE_TO_EMOJI.length = 256 ∧ BYTE_TO_EMOJI[0]! ≠ BYTE_TO_EMOJI[255]! :=
  ⟨C3_alphabet_card_and_distinct.1,
    C3_alphabet_card_and_distinct.2 0 255 (by decide) (by decide) (by decide)⟩

/-- C4: the reverse index inverts the alphabet table: for every index i below
256, looking the glyph `BYTE_TO_EMOJI[i]` up in `EMOJI_TO_BYTE` yields
`some i`. -/
theorem C4_reverse_index_inverse :
    ∀ i, i < 256 → EMOJI_TO_BYTE (BYTE_TO_EMOJI[i]!) = some i :=
  fun _ hi => emojiToByte_glyph hi

/-- Witness for C4 at the concrete index 7. -/
theorem C4_witness : EMOJI_TO_BYTE (BYTE_TO_EMOJI[7]!) = some 7 :=
  C4_reverse_index_inverse 7 (by decide)

/-- C5: decode fails with `InvalidEmoji` exactly when the input has a
character outside the alphabet, wherever it occurs, and succeeds with some
identifier otherwise (so no partial identifier is ever produced). -/
theorem C5_decode_error_characterization (s : List Char) :
    (EmojiId.from_str s = Except.error EmojiIdError.InvalidEmoji ↔
      ∃ c ∈ s, c ∉ BYTE_TO_EMOJI) ∧
    ((∀ c ∈ s, c ∈ BYTE_TO_EMOJI) → ∃ id, EmojiId.from_str s = Except.ok id) := by
  constructor
  · constructor
    · intro h
      rcases r : fromStrLoop s [] with e | bs
      · rcases (fromStrLoop_error_iff s []).mp ⟨e, r⟩ with ⟨c, hcs, hcn⟩
        exact ⟨c, hcs, emojiToByte_eq_none_iff.mp hcn⟩
      · rw [EmojiId.from_str, r] at h
        simp [Except.map] at h
    · rintro ⟨c, hcs, hcm⟩
      rcases (fromStrLoop_error_iff s []).mpr
          ⟨c, hcs, emojiToByte_eq_none_iff.mpr hcm⟩ with ⟨e, he⟩
      rw [emojiIdError_eq e] at he
      rw [EmojiId.from_str, he]
      rfl
  · intro hall
    rcases r : fromStrLoop s [] with e | bs
    · rcases (fromStrLoop_error_iff s []).mp ⟨e, r⟩ with ⟨c, hcs, hcn⟩
      exact absurd (hall c hcs) (emojiToByte_eq_none_iff.mp hcn)
    · exact ⟨{ bytes := bs }, by rw [EmojiId.from_str, r]; rfl⟩

/-- Witness for C5: the tomato emoji (code point 127813) is not in the
alphabet, and decoding the one-character string holding it fails with
`InvalidEmoji`. -/
theorem C5_witness :
    EmojiId.from_str [Char.ofNat 127813] = Except.error EmojiIdError.InvalidEmoji :=
  (C5_decode_error_characterization [Char.ofNat 127813]).1.mpr
    ⟨Char.ofNat 127813, by decide, by decide⟩

/-- C6: encode preserves length: the rendered string of an identifier built
from byte sequence B has as many characters as B has bytes. -/
theorem C6_length_preservation (B : List Nat) (_h : ∀ b ∈ B, b < 256) :
    (EmojiId.toString (EmojiId.fromBytes B)).length = B.length := by
  simp [EmojiId.toString, EmojiId.fromBytes]

/-- Witness for C6 at the concrete byte sequence `[17, 17, 200]`. -/
theorem C6_witness :
    (EmojiId.toString (EmojiId.fromBytes [17, 17, 200])).length = [17, 17, 200].length :=
  C6_length_preservation [17, 17, 200] (by decide)

/-- C7: encode is total: every byte value below 256 is an in-bounds index
into `BYTE_TO_EMOJI`, so the forward lookup is defined (returns `some`) for
every byte and rendering never hits a failure branch. -/
theorem C7_encode_total (b : Nat) (h : b < 256) :
    b < BYTE_TO_EMOJI.length ∧ BYTE_TO_EMOJI[b]? = some (BYTE_TO_EMOJI[b]!) := by
  have hlen : b < BYTE_TO_EMOJI.length := byteToEmoji_length ▸ h
  refine ⟨hlen, ?_⟩
  rw [getElem!_pos BYTE_TO_EMOJI b hlen]
  exact List.getElem?_eq_getElem hlen

/-- Witness for C7 at the concrete byte value 255. -/
theorem C7_witness :
    255 < BYTE_TO_EMOJI.length ∧ BYTE_TO_EMOJI[255]? = some (BYTE_TO_EMOJI[255]!) :=
  C7_encode_total 255 (by decide)

/-- C8: empty input is valid on both sides: encoding the empty byte sequence
yields the empty string, and decoding the empty string succeeds with the
empty-byte identifier rather than an error. -/
theorem C8_empty_input :
    EmojiId.toString (EmojiId.fromBytes []) = [] ∧
    EmojiId.from_str [] = Except.ok (EmojiId.fromBytes []) :=
  ⟨rfl, rfl⟩

/-- C9: equality on `EmojiId` is structural over the wrapped bytes, and the
derived comparison is a total order (reflexivity of `eq`, antisymmetry via
`swap`, transitivity, totality via `swap`) that compares the byte sequences
lexicographically byte-wise (`List.Lex` over `<`). -/
theorem C9_eq_and_ord :
    (∀ a b : EmojiId, a = b ↔ a.as_bytes = b.as_bytes) ∧
    (∀ a b : EmojiId, EmojiId.cmp a b = .eq ↔ a = b) ∧
    (∀ a b : EmojiId, EmojiId.cmp b a = (EmojiId.cmp a b).swap) ∧
    (∀ a b c : EmojiId, EmojiId.cmp a b = .lt → EmojiId.cmp b c = .lt →
      EmojiId.cmp a c = .lt) ∧
    (∀ a b : EmojiId, EmojiId.cmp a b = .lt ↔ List.Lex (· < ·) a.as_bytes b.as_bytes) := by
  refine ⟨?_, ?_, ?_, ?_, ?_⟩
  · rintro ⟨as⟩ ⟨bs⟩
    simp [EmojiId.as_bytes]
  · rintro ⟨as⟩ ⟨bs⟩
    rw [EmojiId.cmp, cmpVec_eq_iff]
    simp
  · intro a b
    exact cmpVec_swap a.bytes b.bytes
  · intro a b c h1 h2
    exact cmpVec_lt_trans h1 h2
  · intro a b
    exact cmpVec_lt_iff_lex a.bytes b.bytes

/-- Witness for C9: transitivity applied at the concrete identifiers with
bytes `[0]`, `[0, 1]` and `[1]`. -/
theorem C9_witness :
    EmojiId.cmp { bytes := [0] } { bytes := [1] } = .lt :=
  C9_eq_and_ord.2.2.2.1 { bytes := [0] } { bytes := [0, 1] } { bytes := [1] }
    (by decide) (by decide)

/-- C10: the reverse index is consistent with the forward table: whenever
`EMOJI_TO_BYTE` maps a character c to a byte i, then i is below 256 and the
table holds exactly c at index i. -/
theorem C10_reverse_lookup_consistent (c : Char) (i : Nat)
    (h : EMOJI_TO_BYTE c = some i) :
    i < 256 ∧ BYTE_TO_EMOJI[i]! = c :=
  emojiToByte_sound h

/-- Witness for C10 at the concrete character 🌈 (code point 127752), which
the reverse index maps to byte 2. -/
theorem C10_witness : 2 < 256 ∧ BYTE_TO_EMOJI[2]! = Char.ofNat 127752 :=
  C10_reverse_lookup_consistent (Char.ofNat 127752) 2 (by decide)
